import Mathlib

/-!
Shallow embedding of the partybox Celebrity game session actor
(src/celebrity.go) and proofs about the session-level claims.

Modelling conventions:
* Go strings are Lean `String`; Go slices are Lean `List`.
* The Go maps `eliminated : map[string]bool` and `teams : map[string]string`
  are modelled as a membership list (`List String`, `contains` = "maps to
  true") and an association list (`List (String × String)`, `lookup`),
  which is faithful because the code only ever reads them through
  membership / lookup and writes single keys.
* `crypto/rand` reads are modelled as a stream `Nat → Option Nat` giving
  the byte returned by the k-th one-byte read, `none` meaning the read
  returned an error.
* Wall-clock times (`lastActive`, reaper arithmetic) are modelled as `Int`
  in the registry model; the per-hub `lastActive`/`createdAt` bookkeeping
  does not influence any in-session decision and is omitted from `Hub`.
* Channels/goroutines are collapsed into the serialized per-session
  command stream (`Command`/`step`), mirroring the actor discipline of
  `Hub.run`; the set of live connections is kept as the list of their
  playerIDs, which is all the handlers inspect.
-/

namespace Partybox

/-- Player record (src/celebrity.go, `type Player`). -/
structure Player where
  playerID  : String
  username  : String
  celebrity : String
deriving Repr, DecidableEq

/-- The per-session mutable state owned by the actor (src/celebrity.go,
`type Hub`), restricted to the fields the game logic reads or writes.
`clients` holds the playerID of every live connection (the handlers only
ever compare `client.playerID`). -/
structure Hub where
  players : List Player
  clients : List String
  lobbyLocked : Bool
  moderatorPlayerID : String
  gameStarted : Bool
  turnOrder : List String
  currentTurn : Nat
  eliminated : List String
  teams : List (String × String)
deriving Repr, DecidableEq

/-- `newHub` (src/celebrity.go): fresh session state. -/
def newHub : Hub :=
  { players := [], clients := [], lobbyLocked := false, moderatorPlayerID := ""
  , gameStarted := false, turnOrder := [], currentTurn := 0
  , eliminated := [], teams := [] }

/-- Reply sent (or not) to the joining connection by `handleJoin`. -/
inductive JoinReply where
  | ignored
  | lockedOut
  | collision (field : String)
  | ok
deriving Repr, DecidableEq

/-- The collision-detection loop of `handleJoin` (src/celebrity.go:558-571):
walks the player list, skipping the joining identity's own record, and
returns "username" or "celebrity" for the first other record whose
corresponding field matches, else "". -/
def collisionFieldFor : List Player → String → String → String → String
  | [], _, _, _ => ""
  | p :: rest, pid, u, c =>
    if p.playerID == pid then collisionFieldFor rest pid u c
    else if p.username == u then "username"
    else if p.celebrity == c then "celebrity"
    else collisionFieldFor rest pid u c

/-- The `existingIndex` scan of `handleJoin` (src/celebrity.go:537-543):
index of the first player record with the joining playerID. -/
def findExistingIndex : List Player → String → Option Nat
  | [], _ => none
  | p :: rest, pid =>
    if p.playerID == pid then some 0
    else (findExistingIndex rest pid).map (· + 1)

/-- `handleJoin` (src/celebrity.go:524-609): empty-field joins are dropped,
a locked lobby rejects identities without an existing record, collisions
against any *other* record abort, otherwise the record is updated in
place or appended. -/
def handleJoin (h : Hub) (pid u c : String) : Hub × JoinReply :=
  if u == "" || c == "" || pid == "" then (h, .ignored)
  else if h.lobbyLocked && findExistingIndex h.players pid == none then (h, .lockedOut)
  else if collisionFieldFor h.players pid u c != "" then
    (h, .collision (collisionFieldFor h.players pid u c))
  else
    match findExistingIndex h.players pid with
    | some i => ({ h with players := h.players.set i ⟨pid, u, c⟩ }, .ok)
    | none => ({ h with players := h.players ++ [⟨pid, u, c⟩] }, .ok)

/-- The session-level uniqueness invariant over player records: pairwise
distinct playerIDs, usernames and celebrity names. -/
def PlayersDistinct (ps : List Player) : Prop :=
  ps.Pairwise (fun p q =>
    p.playerID ≠ q.playerID ∧ p.username ≠ q.username ∧ p.celebrity ≠ q.celebrity)

instance (ps : List Player) : Decidable (PlayersDistinct ps) := by
  unfold PlayersDistinct
  infer_instance

theorem collisionFieldFor_empty :
    ∀ (ps : List Player) (pid u c : String),
    collisionFieldFor ps pid u c = "" →
    ∀ q ∈ ps, q.playerID ≠ pid → q.username ≠ u ∧ q.celebrity ≠ c := by
  intro ps pid u c
  induction ps with
  | nil => intro _ q hq; exact absurd hq (List.not_mem_nil q)
  | cons p rest ih =>
    intro h q hq hqpid
    rw [collisionFieldFor] at h
    by_cases h1 : (p.playerID == pid) = true
    · rw [if_pos h1] at h
      rcases List.mem_cons.mp hq with rfl | hq'
      · exact absurd (beq_iff_eq.mp h1) hqpid
      · exact ih h q hq' hqpid
    · rw [if_neg h1] at h
      by_cases h2 : (p.username == u) = true
      · rw [if_pos h2] at h; exact absurd h (by decide)
      · rw [if_neg h2] at h
        by_cases h3 : (p.celebrity == c) = true
        · rw [if_pos h3] at h; exact absurd h (by decide)
        · rw [if_neg h3] at h
          rcases List.mem_cons.mp hq with rfl | hq'
          · exact ⟨fun hh => h2 (beq_iff_eq.mpr hh), fun hh => h3 (beq_iff_eq.mpr hh)⟩
          · exact ih h q hq' hqpid

theorem collisionFieldFor_empty_of_no_clash :
    ∀ (ps : List Player) (pid u c : String),
    (∀ q ∈ ps, q.playerID ≠ pid → q.username ≠ u ∧ q.celebrity ≠ c) →
    collisionFieldFor ps pid u c = "" := by
  intro ps pid u c
  induction ps with
  | nil => intro _; rfl
  | cons p rest ih =>
    intro hno
    rw [collisionFieldFor]
    by_cases h1 : (p.playerID == pid) = true
    · rw [if_pos h1]
      exact ih fun q hq => hno q (List.mem_cons_of_mem _ hq)
    · rw [if_neg h1]
      have hp := hno p (List.mem_cons_self _ _) (fun hh => h1 (beq_iff_eq.mpr hh))
      rw [if_neg (fun hh => hp.1 (beq_iff_eq.mp hh)),
        if_neg (fun hh => hp.2 (beq_iff_eq.mp hh))]
      exact ih fun q hq => hno q (List.mem_cons_of_mem _ hq)

theorem findExistingIndex_eq_none :
    ∀ (ps : List Player) (pid : String),
    findExistingIndex ps pid = none → ∀ q ∈ ps, q.playerID ≠ pid := by
  intro ps pid
  induction ps with
  | nil => intro _ q hq; exact absurd hq (List.not_mem_nil q)
  | cons p rest ih =>
    intro h q hq
    rw [findExistingIndex] at h
    by_cases h1 : (p.playerID == pid) = true
    · rw [if_pos h1] at h; exact absurd h (by simp)
    · rw [if_neg h1] at h
      rcases List.mem_cons.mp hq with rfl | hq'
      · exact fun hh => h1 (beq_iff_eq.mpr hh)
      · exact ih (by simpa using h) q hq'

theorem findExistingIndex_eq_some :
    ∀ (ps : List Player) (pid : String) (i : Nat),
    findExistingIndex ps pid = some i →
    ∃ p, ps[i]? = some p ∧ p.playerID = pid := by
  intro ps pid
  induction ps with
  | nil => intro i h; simp [findExistingIndex] at h
  | cons p rest ih =>
    intro i h
    rw [findExistingIndex] at h
    by_cases h1 : (p.playerID == pid) = true
    · rw [if_pos h1] at h
      obtain rfl : i = 0 := by simpa using h.symm
      exact ⟨p, by simp, beq_iff_eq.mp h1⟩
    · rw [if_neg h1] at h
      match hrec : findExistingIndex rest pid with
      | none => rw [hrec] at h; simp at h
      | some j =>
        rw [hrec] at h
        obtain rfl : i = j + 1 := by simpa using h.symm
        obtain ⟨q, hq, hqpid⟩ := ih j hrec
        exact ⟨q, by simpa using hq, hqpid⟩

theorem findExistingIndex_some_of_mem :
    ∀ (ps : List Player) (pid : String),
    (∃ p ∈ ps, p.playerID = pid) → ∃ i, findExistingIndex ps pid = some i := by
  intro ps pid
  induction ps with
  | nil => intro ⟨p, hp, _⟩; exact absurd hp (List.not_mem_nil p)
  | cons q rest ih =>
    intro ⟨p, hp, hpid⟩
    rw [findExistingIndex]
    by_cases h1 : (q.playerID == pid) = true
    · exact ⟨0, by rw [if_pos h1]⟩
    · rw [if_neg h1]
      rcases List.mem_cons.mp hp with rfl | hp'
      · exact absurd (beq_iff_eq.mpr hpid) h1
      · obtain ⟨i, hi⟩ := ih ⟨p, hp', hpid⟩
        exact ⟨i + 1, by rw [hi]; rfl⟩

theorem playersDistinct_set :
    ∀ (ps : List Player) (i : Nat) (pid u c : String),
    PlayersDistinct ps →
    (∃ p, ps[i]? = some p ∧ p.playerID = pid) →
    (∀ q ∈ ps, q.playerID ≠ pid → q.username ≠ u ∧ q.celebrity ≠ c) →
    PlayersDistinct (ps.set i ⟨pid, u, c⟩) := by
  intro ps
  induction ps with
  | nil => intro i pid u c hInv _ _; simpa using hInv
  | cons p rest ih =>
    intro i pid u c hInv hget hother
    obtain ⟨hhead, htail⟩ := List.pairwise_cons.mp hInv
    cases i with
    | zero =>
      obtain ⟨p', hp', hpid⟩ := hget
      obtain rfl : p = p' := by simpa using hp'
      rw [List.set]
      refine List.pairwise_cons.mpr ⟨?_, htail⟩
      intro q hq
      have hpq := hhead q hq
      have hqpid : q.playerID ≠ pid := fun hh => hpq.1 (hpid.trans hh.symm)
      have hqo := hother q (List.mem_cons_of_mem _ hq) hqpid
      exact ⟨fun hh => hqpid hh.symm, fun hh => hqo.1 hh.symm, fun hh => hqo.2 hh.symm⟩
    | succ i =>
      rw [List.set]
      refine List.pairwise_cons.mpr ⟨?_, ?_⟩
      · intro q hq
        rcases List.mem_or_eq_of_mem_set hq with hq' | rfl
        · exact hhead q hq'
        · obtain ⟨p', hp', hpid⟩ := hget
          have hp0 : rest[i]? = some p' := by simpa using hp'
          have hp'' : p' ∈ rest := by
            have hlen : i < rest.length := by
              by_contra hge
              rw [List.getElem?_eq_none (by omega)] at hp0
              exact absurd hp0 (by simp)
            have := List.getElem?_eq_getElem hlen
            rw [this] at hp0
            obtain rfl : rest[i] = p' := by simpa using hp0
            exact List.getElem_mem hlen
          have hppid : p.playerID ≠ pid := by
            have := hhead p' hp''
            rw [← hpid]; exact this.1
          have hpo := hother p (List.mem_cons_self _ _) hppid
          exact ⟨hppid, hpo.1, hpo.2⟩
      · exact ih i pid u c htail (by simpa using hget)
          (fun q hq => hother q (List.mem_cons_of_mem _ hq))

theorem playersDistinct_append (ps : List Player) (pid u c : String)
    (hInv : PlayersDistinct ps)
    (hnot : ∀ q ∈ ps, q.playerID ≠ pid)
    (hother : ∀ q ∈ ps, q.playerID ≠ pid → q.username ≠ u ∧ q.celebrity ≠ c) :
    PlayersDistinct (ps ++ [⟨pid, u, c⟩]) := by
  rw [PlayersDistinct, List.pairwise_append]
  refine ⟨hInv, List.pairwise_singleton _ _, ?_⟩
  intro a ha b hb
  obtain rfl : b = (⟨pid, u, c⟩ : Player) := by simpa using hb
  have hao := hother a ha (hnot a ha)
  exact ⟨hnot a ha, hao.1, hao.2⟩

theorem handleJoin_preserves_distinct (h : Hub) (pid u c : String)
    (hInv : PlayersDistinct h.players) :
    PlayersDistinct ((handleJoin h pid u c).1.players) := by
  rw [handleJoin]
  split
  · exact hInv
  split
  · exact hInv
  split
  · exact hInv
  rename_i h1 h2 hcf
  have hcf' : collisionFieldFor h.players pid u c = "" := by
    by_cases hx : collisionFieldFor h.players pid u c = ""
    · exact hx
    · exact absurd (by simpa using hx) hcf
  have hother := collisionFieldFor_empty h.players pid u c hcf'
  split
  · rename_i i hidx
    exact playersDistinct_set h.players i pid u c hInv
      (findExistingIndex_eq_some h.players pid i hidx) hother
  · rename_i hidx
    exact playersDistinct_append h.players pid u c hInv
      (findExistingIndex_eq_none h.players pid hidx) hother

/-- Applies a sequence of join commands `(playerID, username, celebrity)`
through the session actor, discarding the per-command replies. -/
def applyJoins (h : Hub) : List (String × String × String) → Hub
  | [] => h
  | (pid, u, c) :: rest => applyJoins (handleJoin h pid u c).1 rest

theorem applyJoins_preserves_distinct (js : List (String × String × String)) :
    ∀ (h : Hub), PlayersDistinct h.players → PlayersDistinct ((applyJoins h js).players) := by
  induction js with
  | nil => intro h hInv; exact hInv
  | cons j rest ih =>
    intro h hInv
    obtain ⟨pid, u, c⟩ := j
    exact ih _ (handleJoin_preserves_distinct h pid u c hInv)

theorem handleJoin_unchanged_on_clash (h : Hub) (pid u c : String)
    (hclash : ∃ q ∈ h.players, q.playerID ≠ pid ∧ (q.username = u ∨ q.celebrity = c)) :
    (handleJoin h pid u c).1 = h := by
  rw [handleJoin]
  split
  · rfl
  split
  · rfl
  split
  · rfl
  rename_i h1 h2 hcf
  exfalso
  have hcf' : collisionFieldFor h.players pid u c = "" := by
    by_cases hx : collisionFieldFor h.players pid u c = ""
    · exact hx
    · exact absurd (by simpa using hx) hcf
  obtain ⟨q, hq, hqpid, hqor⟩ := hclash
  have := collisionFieldFor_empty h.players pid u c hcf' q hq hqpid
  rcases hqor with hh | hh
  · exact this.1 hh
  · exact this.2 hh

/-- C1: over any sequence of join commands starting from a session state
with pairwise-distinct player identities, usernames and celebrity names
(in particular from the fresh session), no two Player records ever hold
an equal username or an equal celebrity name, and a join that would
collide with another identity's record leaves the state unchanged. -/
theorem join_sequences_preserve_uniqueness :
    (∀ (h : Hub) (js : List (String × String × String)),
      PlayersDistinct h.players → PlayersDistinct ((applyJoins h js).players)) ∧
    (∀ (h : Hub) (pid u c : String),
      (∃ q ∈ h.players, q.playerID ≠ pid ∧ (q.username = u ∨ q.celebrity = c)) →
      (handleJoin h pid u c).1 = h) :=
  ⟨fun h js hInv => applyJoins_preserves_distinct js h hInv,
   handleJoin_unchanged_on_clash⟩

/-- Witness for C1 at a concrete session: two successful joins followed by
a join colliding on the celebrity name, which is not applied. -/
theorem join_sequences_preserve_uniqueness_witness :
    PlayersDistinct ((applyJoins newHub
      [("a", "alice", "Cher"), ("b", "bob", "Elvis"), ("c", "carol", "Cher")]).players) ∧
    (handleJoin (applyJoins newHub [("a", "alice", "Cher"), ("b", "bob", "Elvis")])
      "c" "carol" "Cher").1 =
      applyJoins newHub [("a", "alice", "Cher"), ("b", "bob", "Elvis")] := by
  constructor
  · exact join_sequences_preserve_uniqueness.1 newHub
      [("a", "alice", "Cher"), ("b", "bob", "Elvis"), ("c", "carol", "Cher")] (by decide)
  · exact join_sequences_preserve_uniqueness.2 _ "c" "carol" "Cher"
      ⟨⟨"a", "alice", "Cher"⟩, by decide, by decide, Or.inr rfl⟩

theorem lt_length_of_getElem?_some {α : Type} {l : List α} {i : Nat} {a : α}
    (h : l[i]? = some a) : i < l.length := by
  by_contra hge
  rw [List.getElem?_eq_none (by omega)] at h
  exact absurd h (by simp)

theorem map_playerID_set :
    ∀ (ps : List Player) (i : Nat) (pid u c : String),
    (∃ p, ps[i]? = some p ∧ p.playerID = pid) →
    (ps.set i ⟨pid, u, c⟩).map Player.playerID = ps.map Player.playerID := by
  intro ps
  induction ps with
  | nil => intro i pid u c _; simp
  | cons p rest ih =>
    intro i pid u c hget
    cases i with
    | zero =>
      obtain ⟨p', hp', hpid⟩ := hget
      obtain rfl : p = p' := by simpa using hp'
      simp [List.set, hpid]
    | succ i =>
      rw [List.set]
      simp only [List.map_cons]
      rw [ih i pid u c (by simpa using hget)]

theorem mem_set_self :
    ∀ (ps : List Player) (i : Nat) (r : Player), i < ps.length → r ∈ ps.set i r := by
  intro ps
  induction ps with
  | nil => intro i r h; simp at h
  | cons p rest ih =>
    intro i r h
    cases i with
    | zero => rw [List.set]; exact List.mem_cons_self _ _
    | succ i =>
      rw [List.set]
      exact List.mem_cons_of_mem _ (ih i r (by simpa using h))

/-- C5: a join from an identity that already holds a Player record is not
rejected by the lobby lock and never collides with its own record: when
its new values clash with no *other* identity's record, the join replies
ok and updates the existing record in place (same identities, the new
record present, every other record untouched), regardless of the lock. -/
theorem join_existing_updates_in_place (h : Hub) (pid u c : String)
    (hu : (u == "") = false) (hc : (c == "") = false) (hpid : (pid == "") = false)
    (hex : ∃ p ∈ h.players, p.playerID = pid)
    (hother : ∀ q ∈ h.players, q.playerID ≠ pid → q.username ≠ u ∧ q.celebrity ≠ c) :
    (handleJoin h pid u c).2 = JoinReply.ok ∧
    (handleJoin h pid u c).1.players.map Player.playerID = h.players.map Player.playerID ∧
    (⟨pid, u, c⟩ : Player) ∈ (handleJoin h pid u c).1.players ∧
    (∀ q ∈ (handleJoin h pid u c).1.players, q.playerID ≠ pid → q ∈ h.players) := by
  obtain ⟨i, hidx⟩ := findExistingIndex_some_of_mem h.players pid hex
  have hcf : collisionFieldFor h.players pid u c = "" :=
    collisionFieldFor_empty_of_no_clash h.players pid u c hother
  have hmain : handleJoin h pid u c =
      ({ h with players := h.players.set i ⟨pid, u, c⟩ }, JoinReply.ok) := by
    rw [handleJoin, if_neg (by simp [hu, hc, hpid]), if_neg (by simp [hidx]),
      if_neg (by simp [hcf]), hidx]
  obtain ⟨p, hp, hppid⟩ := findExistingIndex_eq_some h.players pid i hidx
  refine ⟨by rw [hmain], ?_, ?_, ?_⟩
  · rw [hmain]
    exact map_playerID_set h.players i pid u c ⟨p, hp, hppid⟩
  · rw [hmain]
    exact mem_set_self h.players i _ (lt_length_of_getElem?_some hp)
  · rw [hmain]
    intro q hq hqpid
    rcases List.mem_or_eq_of_mem_set hq with hq' | rfl
    · exact hq'
    · exact absurd rfl hqpid

/-- A locked two-player lobby used to witness C5. -/
def lockedLobbyHub : Hub :=
  { newHub with
    lobbyLocked := true
    players := [⟨"a", "alice", "Cher"⟩, ⟨"b", "bob", "Elvis"⟩] }

/-- Witness for C5: in the locked lobby, identity "a" re-joins with a new
username and celebrity; the join succeeds and rewrites its record. -/
theorem join_existing_updates_in_place_witness :
    (handleJoin lockedLobbyHub "a" "ally" "Madonna").2 = JoinReply.ok ∧
    (handleJoin lockedLobbyHub "a" "ally" "Madonna").1.players.map Player.playerID
      = ["a", "b"] ∧
    (⟨"a", "ally", "Madonna"⟩ : Player) ∈
      (handleJoin lockedLobbyHub "a" "ally" "Madonna").1.players := by
  have := join_existing_updates_in_place lockedLobbyHub
    "a" "ally" "Madonna" (by decide) (by decide) (by decide)
    ⟨⟨"a", "alice", "Cher"⟩, by decide, rfl⟩ (by decide)
  exact ⟨this.1, by rw [this.2.1]; decide, this.2.2.1⟩

/-- Map-style assignment on an association list (models Go map writes
`h.teams[k] = v`; keys are unique in reachable states). -/
def setAssoc : List (String × String) → String → String → List (String × String)
  | [], k, v => [(k, v)]
  | (a, b) :: rest, k, v =>
    if a == k then (k, v) :: rest else (a, b) :: setAssoc rest k v

/-- `teamFindLocked` (src/celebrity.go:331-343): path-following find with
insertion of missing ids and path compression, returning the root and the
updated parent map. The Go recursion terminates because parent chains are
acyclic; the fuel (one more than the map size, supplied by callers) is
enough to follow any acyclic chain. -/
def teamFind : Nat → List (String × String) → String → String × List (String × String)
  | 0, t, id => (id, t)
  | Nat.succ fuel, t, id =>
    match t.lookup id with
    | none => (id, setAssoc t id id)
    | some parent =>
      if parent == id then (id, t)
      else
        let res := teamFind fuel t parent
        (res.1, setAssoc res.2 id res.1)

/-- `teamUnionLocked` (src/celebrity.go:345-352): the second root's parent
becomes the first root (asymmetric union, no rank balancing). -/
def teamUnion (t : List (String × String)) (a b : String) : List (String × String) :=
  let fa := teamFind (t.length + 1) t a
  let fb := teamFind (fa.2.length + 1) fa.2 b
  if fa.1 == fb.1 then fb.2 else setAssoc fb.2 fb.1 fa.1

/-- The `activeCount` computation of `handleGuess` (src/celebrity.go:683-689):
number of players not marked eliminated. -/
def activeCount (ps : List Player) (elim : List String) : Nat :=
  (ps.filter (fun p => !(elim.contains p.playerID))).length

/-- The incorrect-guess turn rotation of `handleGuess`
(src/celebrity.go:697-705): probe offsets `i, i+1, ...` for `r` steps and
stop at the first index `(cur + offset) % len` holding a non-eliminated
identity; if every probe is eliminated the turn stays put. -/
def nextTurnAux (ord elim : List String) (cur : Nat) : Nat → Nat → Nat
  | _, 0 => cur
  | i, Nat.succ r =>
    if elim.contains (ord.getD ((cur + i) % ord.length) "") then
      nextTurnAux ord elim cur (i + 1) r
    else (cur + i) % ord.length

/-- Turn advancement entry point: the Go loop runs offsets 1..len and only
when the order has more than one entry. -/
def nextTurn (ord elim : List String) (cur : Nat) : Nat :=
  if ord.length > 1 then nextTurnAux ord elim cur 1 ord.length else cur

/-- Reply produced by `handleGuess` for the guessing connection (guessed
results are additionally broadcast). -/
inductive GuessReply where
  | ignored
  | notYourTurn
  | guessError
  | guessed (correct : Bool)
deriving Repr, DecidableEq

/-- `handleGuess` (src/celebrity.go:612-729). Empty fields, an inactive
game, an unknown or eliminated guesser are dropped; a guess out of turn
replies notYourTurn; an unknown celebrity replies guessError. A correct
guess eliminates the owner, merges the teams and ends the game when at
most one active player remains; an incorrect guess rotates the turn.
(The Go code indexes `turnOrder[currentTurn]` unchecked; the `getD`
default can only be hit in states where Go would panic, which no
reachable game state produces since `currentTurn` is always set to
`0` or to a value reduced `% len`.) -/
def handleGuess (h : Hub) (pid celeb target : String) : Hub × GuessReply :=
  if pid == "" || celeb == "" || target == "" then (h, .ignored)
  else if !h.gameStarted || h.turnOrder.isEmpty then (h, .ignored)
  else
    match h.players.find? (fun p => p.playerID == pid) with
    | none => (h, .ignored)
    | some guesser =>
      if h.eliminated.contains guesser.playerID then (h, .ignored)
      else if h.turnOrder.getD h.currentTurn "" != guesser.playerID then (h, .notYourTurn)
      else
        match h.players.find? (fun p => p.celebrity == celeb) with
        | none => (h, .guessError)
        | some owner =>
          if owner.username == target then
            let elim' := if h.eliminated.contains owner.playerID then h.eliminated
              else owner.playerID :: h.eliminated
            ({ h with
                eliminated := elim'
                teams := teamUnion h.teams guesser.playerID owner.playerID
                gameStarted := decide (activeCount h.players elim' > 1) },
              .guessed true)
          else
            ({ h with currentTurn := nextTurn h.turnOrder h.eliminated h.currentTurn },
              .guessed false)

theorem nextTurnAux_first_hit (ord elim : List String) (cur : Nat) :
    ∀ (r i : Nat),
    (∃ k, i ≤ k ∧ k < i + r ∧
      elim.contains (ord.getD ((cur + k) % ord.length) "") = false) →
    ∃ k, i ≤ k ∧ k < i + r ∧
      nextTurnAux ord elim cur i r = (cur + k) % ord.length ∧
      elim.contains (ord.getD ((cur + k) % ord.length) "") = false ∧
      ∀ j, i ≤ j → j < k →
        elim.contains (ord.getD ((cur + j) % ord.length) "") = true := by
  intro r
  induction r with
  | zero =>
    intro i ⟨k, hik, hkr, _⟩
    omega
  | succ r ih =>
    intro i ⟨k, hik, hkr, hkelim⟩
    rw [nextTurnAux]
    by_cases hcur : elim.contains (ord.getD ((cur + i) % ord.length) "") = true
    · rw [if_pos hcur]
      have hki : i ≠ k := by
        intro hh
        rw [← hh] at hkelim
        rw [hcur] at hkelim
        exact absurd hkelim (by decide)
      obtain ⟨k', hik', hk'r, heq, helim', hmin⟩ :=
        ih (i + 1) ⟨k, by omega, by omega, hkelim⟩
      refine ⟨k', by omega, by omega, heq, helim', ?_⟩
      intro j hij hjk
      by_cases hji : j = i
      · rw [hji]; exact hcur
      · exact hmin j (by omega) hjk
    · rw [if_neg hcur]
      exact ⟨i, le_refl i, by omega, rfl, by simpa using hcur,
        fun j h1 h2 => by omega⟩

theorem nextTurn_first_hit (ord elim : List String) (cur : Nat)
    (hcur : cur < ord.length)
    (hok : elim.contains (ord.getD cur "") = false) :
    ∃ k, 1 ≤ k ∧ k ≤ ord.length ∧
      nextTurn ord elim cur = (cur + k) % ord.length ∧
      elim.contains (ord.getD ((cur + k) % ord.length) "") = false ∧
      ∀ j, 1 ≤ j → j < k →
        elim.contains (ord.getD ((cur + j) % ord.length) "") = true := by
  have hmod : (cur + ord.length) % ord.length = cur := by
    rw [Nat.add_mod_right]
    exact Nat.mod_eq_of_lt hcur
  rw [nextTurn]
  by_cases hlen : ord.length > 1
  · rw [if_pos hlen]
    obtain ⟨k, h1, h2, heq, helim, hmin⟩ :=
      nextTurnAux_first_hit ord elim cur ord.length 1
        ⟨ord.length, by omega, by omega, by rw [hmod]; exact hok⟩
    exact ⟨k, h1, by omega, heq, helim, hmin⟩
  · rw [if_neg hlen]
    have hone : ord.length = 1 := by omega
    have hcur0 : cur = 0 := by omega
    refine ⟨1, le_refl 1, by omega, ?_, ?_, fun j h1 h2 => by omega⟩
    · rw [hone, hcur0]
    · rw [hone, hcur0]
      simpa [hcur0] using hok

/-- C2: while the game is Active, a guess that is answered with a
guess_result leaves `currentTurn` unchanged when correct; when incorrect
it moves `currentTurn` to the first index after it (circularly, wrapping
at most once around the order, offsets 1..len) whose identity is not in
the eliminated set, and every index strictly between the old position and
the chosen one holds an eliminated identity. -/
theorem guess_turn_advancement (h h' : Hub) (pid celeb target : String) (b : Bool)
    (hct : h.currentTurn < h.turnOrder.length)
    (hres : handleGuess h pid celeb target = (h', .guessed b)) :
    (b = true → h'.currentTurn = h.currentTurn) ∧
    (b = false → ∃ k, 1 ≤ k ∧ k ≤ h.turnOrder.length ∧
      h'.currentTurn = (h.currentTurn + k) % h.turnOrder.length ∧
      h.eliminated.contains (h.turnOrder.getD h'.currentTurn "") = false ∧
      ∀ j, 1 ≤ j → j < k →
        h.eliminated.contains
          (h.turnOrder.getD ((h.currentTurn + j) % h.turnOrder.length) "") = true) := by
  rw [handleGuess] at hres
  split at hres
  · exact absurd (congrArg Prod.snd hres) (by simp)
  split at hres
  · exact absurd (congrArg Prod.snd hres) (by simp)
  split at hres
  · exact absurd (congrArg Prod.snd hres) (by simp)
  rename_i guesser hguesser
  split at hres
  · exact absurd (congrArg Prod.snd hres) (by simp)
  rename_i helim
  split at hres
  · exact absurd (congrArg Prod.snd hres) (by simp)
  rename_i hturn
  split at hres
  · exact absurd (congrArg Prod.snd hres) (by simp)
  rename_i owner howner
  split at hres
  · have hb : true = b := by simpa using congrArg Prod.snd hres
    have hh' : h' = _ := (congrArg Prod.fst hres).symm
    constructor
    · intro _
      rw [hh']
    · intro hfalse
      rw [← hb] at hfalse
      exact absurd hfalse (by decide)
  · have hb : false = b := by simpa using congrArg Prod.snd hres
    have hh' : h' = _ := (congrArg Prod.fst hres).symm
    constructor
    · intro htrue
      rw [← hb] at htrue
      exact absurd htrue (by decide)
    · intro _
      have hcurok : h.eliminated.contains (h.turnOrder.getD h.currentTurn "") = false := by
        have hgd : h.turnOrder.getD h.currentTurn "" = guesser.playerID := by
          by_cases hx : h.turnOrder.getD h.currentTurn "" = guesser.playerID
          · exact hx
          · exact absurd (by simpa using hx) hturn
        rw [hgd]
        by_cases hy : h.eliminated.contains guesser.playerID = true
        · exact absurd hy helim
        · simpa using hy
      obtain ⟨k, h1, h2, heq, hok, hmin⟩ :=
        nextTurn_first_hit h.turnOrder h.eliminated h.currentTurn hct hcurok
      refine ⟨k, h1, h2, ?_, ?_, hmin⟩
      · rw [hh', heq]
      · rw [hh', heq]
        exact hok

/-- Session used to witness C2 and C3: a started three-player game with
"a" to move and nobody eliminated yet. -/
def startedHub : Hub :=
  { players := [⟨"a", "ua", "A"⟩, ⟨"b", "ub", "B"⟩, ⟨"c", "uc", "C"⟩]
  , clients := [], lobbyLocked := false, moderatorPlayerID := "m"
  , gameStarted := true, turnOrder := ["a", "b", "c"], currentTurn := 0
  , eliminated := [], teams := [] }

/-- Witness for C2: in `startedHub`, "a" incorrectly attributes "B" to
"uc"; the theorem instantiates to this guess and its turn rotation. -/
theorem guess_turn_advancement_witness :
    (false = true → ({ startedHub with currentTurn := 1 } : Hub).currentTurn
        = startedHub.currentTurn) ∧
    (false = false → ∃ k, 1 ≤ k ∧ k ≤ startedHub.turnOrder.length ∧
      ({ startedHub with currentTurn := 1 } : Hub).currentTurn
        = (startedHub.currentTurn + k) % startedHub.turnOrder.length ∧
      startedHub.eliminated.contains
        (startedHub.turnOrder.getD
          ({ startedHub with currentTurn := 1 } : Hub).currentTurn "") = false ∧
      ∀ j, 1 ≤ j → j < k →
        startedHub.eliminated.contains
          (startedHub.turnOrder.getD
            ((startedHub.currentTurn + j) % startedHub.turnOrder.length) "") = true) :=
  guess_turn_advancement startedHub { startedHub with currentTurn := 1 }
    "a" "B" "uc" false (by decide) (by decide)

/-- C3 counterexample: in the started three-player game, the player to
move guesses their own celebrity with their own username. The guess is
correct, the guesser eliminates themself, two active players remain so
the game stays Active, and `turnOrder[currentTurn]` now refers to an
eliminated identity — contradicting the claim, which allows this only
when the phase has reverted to Lobby. -/
theorem guess_self_elimination_breaks_turn_invariant :
    (handleGuess startedHub "a" "A" "ua").2 = GuessReply.guessed true ∧
    (handleGuess startedHub "a" "A" "ua").1.gameStarted = true ∧
    (handleGuess startedHub "a" "A" "ua").1.eliminated.contains
      ((handleGuess startedHub "a" "A" "ua").1.turnOrder.getD
        (handleGuess startedHub "a" "A" "ua").1.currentTurn "") = true := by
  decide

/-- C3 amended: after a guess answered with a guess_result, the identity
at `turnOrder[currentTurn]` is not in the eliminated set while the game
is still Active, provided the guess is not a correct self-guess: the
owner of the named celebrity is not the guesser themself with the target
naming that owner's own username. (Such a correct self-guess leaves the
turn index on the now-eliminated guesser even when the game continues;
an incorrect guess naming the guesser's own celebrity with someone
else's username is covered and keeps the invariant.) -/
theorem guess_keeps_turn_on_active (h h' : Hub) (pid celeb target : String) (b : Bool)
    (hct : h.currentTurn < h.turnOrder.length)
    (hres : handleGuess h pid celeb target = (h', .guessed b))
    (hnotself : ((h.players.find? (fun p => p.celebrity == celeb)).all
      (fun p => !(p.playerID == pid && p.username == target))) = true) :
    h'.gameStarted = true →
    h'.eliminated.contains (h'.turnOrder.getD h'.currentTurn "") = false := by
  rw [handleGuess] at hres
  split at hres
  · exact absurd (congrArg Prod.snd hres) (by simp)
  split at hres
  · exact absurd (congrArg Prod.snd hres) (by simp)
  split at hres
  · exact absurd (congrArg Prod.snd hres) (by simp)
  rename_i guesser hguesser
  split at hres
  · exact absurd (congrArg Prod.snd hres) (by simp)
  rename_i helim
  split at hres
  · exact absurd (congrArg Prod.snd hres) (by simp)
  rename_i hturn
  split at hres
  · exact absurd (congrArg Prod.snd hres) (by simp)
  rename_i owner howner
  have hgd : h.turnOrder.getD h.currentTurn "" = guesser.playerID := by
    by_cases hx : h.turnOrder.getD h.currentTurn "" = guesser.playerID
    · exact hx
    · exact absurd (by simpa using hx) hturn
  have hgpid : guesser.playerID = pid := by
    have := List.find?_some hguesser
    simpa using this
  have helimF : h.eliminated.contains guesser.playerID = false := by
    by_cases hy : h.eliminated.contains guesser.playerID = true
    · exact absurd hy helim
    · simpa using hy
  split at hres
  · rename_i hcorrect
    have hopid : owner.playerID ≠ pid := by
      intro hh
      rw [howner] at hnotself
      have hns : (!(owner.playerID == pid && owner.username == target)) = true := hnotself
      rw [beq_iff_eq.mpr hh, hcorrect] at hns
      exact absurd hns (by decide)
    have hh' : h' = _ := (congrArg Prod.fst hres).symm
    intro _
    rw [hh']
    simp only [List.getD_eq_getElem?_getD] at hgd ⊢
    rw [hgd]
    by_cases hoe : h.eliminated.contains owner.playerID = true
    · rw [if_pos hoe]
      exact helimF
    · rw [if_neg hoe]
      simp only [List.contains_cons, Bool.or_eq_false_iff]
      refine ⟨?_, helimF⟩
      have : (guesser.playerID == owner.playerID) = false := by
        have hne : guesser.playerID ≠ owner.playerID := by
          intro hh
          rw [hgpid] at hh
          exact hopid hh.symm
        simpa using hne
      exact this
  · have hh' : h' = _ := (congrArg Prod.fst hres).symm
    intro _
    have hcurok : h.eliminated.contains (h.turnOrder.getD h.currentTurn "") = false := by
      rw [hgd]; exact helimF
    obtain ⟨k, h1, h2, heq, hok, hmin⟩ :=
      nextTurn_first_hit h.turnOrder h.eliminated h.currentTurn hct hcurok
    rw [hh']
    simpa [heq] using hok

/-- Witness for the amended C3: "a" names their own celebrity "A" but
someone else's username "ub" — an incorrect self-celebrity guess, which
the amended claim covers (it is not a *correct* self-guess); the
resulting turn index refers to a non-eliminated identity. -/
theorem guess_keeps_turn_on_active_witness :
    ({ startedHub with currentTurn := 1 } : Hub).eliminated.contains
      (({ startedHub with currentTurn := 1 } : Hub).turnOrder.getD
        ({ startedHub with currentTurn := 1 } : Hub).currentTurn "") = false :=
  guess_keeps_turn_on_active startedHub { startedHub with currentTurn := 1 }
    "a" "A" "ub" false (by decide) (by decide) (by decide) rfl

/-- One slice swap `ids[i], ids[j] = ids[j], ids[i]` from the Fisher-Yates
loop of `startGameLocked`. -/
def swapIdx (l : List String) (i j : Nat) : List String :=
  match l[i]?, l[j]? with
  | some a, some b => (l.set i b).set j a
  | _, _ => l

theorem set_getElem_self :
    ∀ (l : List String) (i : Nat) (h : i < l.length), l.set i l[i] = l := by
  intro l
  induction l with
  | nil => intro i h; simp at h
  | cons a l ih =>
    intro i h
    cases i with
    | zero => rfl
    | succ i =>
      rw [List.getElem_cons_succ, List.set, ih i (by simpa using h)]

theorem swapIdx_perm (l : List String) (i j : Nat) : (swapIdx l i j).Perm l := by
  rw [swapIdx]
  split
  · rename_i a b ha hb
    obtain ⟨hi, hla⟩ := List.getElem?_eq_some.mp ha
    obtain ⟨hj, hlb⟩ := List.getElem?_eq_some.mp hb
    by_cases hij : i = j
    · subst hij
      rw [List.set_set, ← hla, set_getElem_self l i hi]
    · rw [List.perm_iff_count]
      intro x
      have hj' : j < (l.set i b).length := by simpa using hj
      rw [List.count_set a x (l.set i b) j hj', List.count_set b x l i hi]
      have hgj : ∀ hh : j < (l.set i b).length, (l.set i b)[j] = b := by
        intro hh
        rw [List.getElem_set, if_neg hij, hlb]
      rw [hgj hj', hla]
      have hbound : (a == x) = true → 0 < List.count x l := by
        intro hax
        rw [List.count_pos_iff]
        exact (beq_iff_eq.mp hax) ▸ (hla ▸ List.getElem_mem hi)
      set p := (if (a == x) = true then 1 else 0) with hp
      set q := (if (b == x) = true then 1 else 0) with hq
      have hp1 : p ≤ 1 := by rw [hp]; split <;> omega
      have hq1 : q ≤ 1 := by rw [hq]; split <;> omega
      have hpc : p = 1 → 0 < List.count x l := by
        rw [hp]
        split
        · intro _; exact hbound (by assumption)
        · omega
      omega
  · exact List.Perm.refl l

/-- Fisher-Yates loop of `startGameLocked` (src/celebrity.go:460-467): the
index runs from `len-1` down to 1 (first pattern argument is the current
index); each iteration draws one byte (`k` counts draws); a failed draw
skips the swap and continues, otherwise `j := b % (i+1)` and the entries
at `i` and `j` are swapped. -/
def fyAux (rnd : Nat → Option Nat) : Nat → Nat → List String → List String
  | 0, _, l => l
  | Nat.succ i, k, l =>
    match rnd k with
    | none => fyAux rnd i (k + 1) l
    | some b => fyAux rnd i (k + 1) (swapIdx l (i + 1) (b % (i + 2)))

theorem fyAux_perm (rnd : Nat → Option Nat) :
    ∀ (i k : Nat) (l : List String), (fyAux rnd i k l).Perm l := by
  intro i
  induction i with
  | zero => intro k l; exact List.Perm.refl l
  | succ i ih =>
    intro k l
    rw [fyAux]
    split
    · exact ih (k + 1) l
    · exact (ih (k + 1) _).trans (swapIdx_perm l (i + 1) _)

/-- `startGameLocked` (src/celebrity.go:446-482): no-op if already Active
or with zero players; otherwise captures the player identities, shuffles
them with Fisher-Yates over the random stream, resets `currentTurn` to 0
and marks the game Active. -/
def startGameLocked (h : Hub) (rnd : Nat → Option Nat) : Hub :=
  if h.gameStarted then h
  else if h.players.isEmpty then h
  else
    { h with
        turnOrder := fyAux rnd (h.players.length - 1) 0 (h.players.map Player.playerID)
        currentTurn := 0
        gameStarted := true }

/-- One serialized command of the session actor loop (`Hub.run` plus
`handleModCommand` dispatch and the delayed `scheduleRemoval`).
Moderator commands carry the issuing identity; `start` also carries the
random stream consumed by the shuffle; `removal` models a player grace
timeout firing. -/
inductive Command where
  | connect (pid : String)
  | disconnect (pid : String)
  | join (pid u c : String)
  | lockLobby (pid : String) (lock : Bool)
  | kick (pid target : String)
  | start (pid : String) (rnd : Nat → Option Nat)
  | guess (pid celeb target : String)
  | removal (pid : String)

/-- Whether a command is the moderator's start_game. -/
def Command.isStart : Command → Bool
  | .start _ _ => true
  | _ => false

/-- The `kick` branch of `handleModCommand` (src/celebrity.go:766-804):
removes every player record matching the target username, clears their
eliminated/teams entries, and force-disconnects their connections. -/
def handleKick (h : Hub) (target : String) : Hub :=
  if target == "" then h
  else
    { h with
        players := h.players.filter (fun p => !(p.username == target))
        clients := h.clients.filter (fun cl =>
          !((h.players.filter (fun p => p.username == target)).any
            (fun p => p.playerID == cl)))
        eliminated := h.eliminated.filter (fun e =>
          !((h.players.filter (fun p => p.username == target)).any
            (fun p => p.playerID == e)))
        teams := h.teams.filter (fun kv =>
          !((h.players.filter (fun p => p.username == target)).any
            (fun p => p.playerID == kv.1))) }

/-- The serialized actor step: `Hub.run`'s register/unregister branches,
`handleJoin`, `handleModCommand` (with its moderator guard), `handleGuess`
and the state change of a fired `scheduleRemoval` (a no-op while any
connection for the identity is live). -/
def step (h : Hub) : Command → Hub
  | .connect pid =>
    { h with
        clients := pid :: h.clients
        moderatorPlayerID :=
          if h.moderatorPlayerID == "" then pid else h.moderatorPlayerID }
  | .disconnect pid => { h with clients := h.clients.erase pid }
  | .join pid u c => (handleJoin h pid u c).1
  | .lockLobby pid lock =>
    if h.moderatorPlayerID != "" && pid == h.moderatorPlayerID then
      { h with lobbyLocked := lock }
    else h
  | .kick pid target =>
    if h.moderatorPlayerID != "" && pid == h.moderatorPlayerID then handleKick h target
    else h
  | .start pid rnd =>
    if h.moderatorPlayerID != "" && pid == h.moderatorPlayerID then startGameLocked h rnd
    else h
  | .guess pid celeb target => (handleGuess h pid celeb target).1
  | .removal pid =>
    if h.clients.contains pid then h
    else
      { h with
          players := h.players.filter (fun p => !(p.playerID == pid))
          eliminated := h.eliminated.filter (fun e => !(e == pid))
          teams := h.teams.filter (fun kv => !(kv.1 == pid)) }

theorem handleJoin_turnOrder (h : Hub) (pid u c : String) :
    (handleJoin h pid u c).1.turnOrder = h.turnOrder := by
  rw [handleJoin]
  split
  · rfl
  split
  · rfl
  split
  · rfl
  split <;> rfl

theorem handleGuess_turnOrder (h : Hub) (pid celeb target : String) :
    (handleGuess h pid celeb target).1.turnOrder = h.turnOrder := by
  rw [handleGuess]
  split
  · rfl
  split
  · rfl
  split
  · rfl
  rename_i guesser hguesser
  split
  · rfl
  split
  · rfl
  split
  · rfl
  split <;> rfl

/-- C4: when start_game executes with the game not yet Active and at
least one Player, the new `turnOrder` is a permutation of exactly the
player identities present at that moment (whatever the random stream
does) and the game becomes Active with the roster unchanged; and no
command other than a start_game issued while in Lobby ever changes
`turnOrder` — guesses, joins, kicks, disconnect-driven removals and a
start_game during an Active game all leave it intact. -/
theorem start_game_turn_order :
    (∀ (h : Hub) (rnd : Nat → Option Nat),
      h.gameStarted = false → h.players ≠ [] →
      (startGameLocked h rnd).turnOrder.Perm (h.players.map Player.playerID) ∧
      (startGameLocked h rnd).gameStarted = true ∧
      (startGameLocked h rnd).players = h.players) ∧
    (∀ (h : Hub) (c : Command),
      h.gameStarted = true ∨ c.isStart = false →
      (step h c).turnOrder = h.turnOrder) := by
  constructor
  · intro h rnd hg hp
    rw [startGameLocked, if_neg (by simp [hg]), if_neg (by simpa using hp)]
    exact ⟨fyAux_perm rnd _ 0 _, rfl, rfl⟩
  · intro h c hyp
    cases c with
    | connect pid => rfl
    | disconnect pid => rfl
    | join pid u c => exact handleJoin_turnOrder h pid u c
    | lockLobby pid lock =>
      rw [step]
      split <;> rfl
    | kick pid target =>
      rw [step]
      split
      · rw [handleKick]
        split <;> rfl
      · rfl
    | start pid rnd =>
      rw [step]
      split
      · rcases hyp with hg | hs
        · rw [startGameLocked, if_pos (by simp [hg])]
        · exact absurd hs (by simp [Command.isStart])
      · rfl
    | guess pid celeb target => exact handleGuess_turnOrder h pid celeb target
    | removal pid =>
      rw [step]
      split <;> rfl

/-- A random stream that always returns byte 1. -/
def constRndOne : Nat → Option Nat := fun _ => some 1

/-- Witness for C4: starting the two-player lobby yields a permutation of
its identities and an Active game, and a subsequent guess leaves the
turn order untouched. -/
theorem start_game_turn_order_witness :
    (startGameLocked lockedLobbyHub constRndOne).turnOrder.Perm
      (lockedLobbyHub.players.map Player.playerID) ∧
    (startGameLocked lockedLobbyHub constRndOne).gameStarted = true ∧
    (step startedHub (Command.guess "a" "B" "uc")).turnOrder = startedHub.turnOrder := by
  have h1 := start_game_turn_order.1 lockedLobbyHub constRndOne rfl (by decide)
  have h2 := start_game_turn_order.2 startedHub (Command.guess "a" "B" "uc") (Or.inl rfl)
  exact ⟨h1.1, h1.2.1, h2⟩

/-- C6 evaluation: the first connecting identity becomes moderator, yet a
join from that very identity passes every check in `handleJoin` (which
never compares against `moderatorPlayerID`) and creates a Player record
holding the moderator identity — contradicting the Hub field comment
"cookie/playerID of moderator (never in players)". -/
theorem moderator_identity_can_join :
    Hub.moderatorPlayerID
      (step (step newHub (Command.connect "mod")) (Command.join "mod" "alice" "Cher"))
      = "mod" ∧
    Hub.players
      (step (step newHub (Command.connect "mod")) (Command.join "mod" "alice" "Cher"))
      = [⟨"mod", "alice", "Cher"⟩] := by
  decide

/-- Alphabet of `GameManager.newGameID` (src/celebrity.go:933). -/
def gameIDAlphabet : List Char :=
  "ABCDEFGHIJKLMNOPQRSTUVWXYZabcdefghijklmnopqrstuvwxyz0123456789".toList

/-- One attempt of `GameManager.newGameID` (src/celebrity.go:932-953):
`none` input models `rand.Read` failing, on which Go panics, so no id is
produced; otherwise eight bytes are mapped through the alphabet by
modulo its length. -/
def newGameIDAttempt : Option (List Nat) → Option String
  | none => none
  | some bs => some (String.mk ((bs.take 8).map
      (fun b => gameIDAlphabet.getD (b % gameIDAlphabet.length) 'A')))

/-- A three-player lobby that has never started a game. -/
def threePlayerLobby : Hub :=
  { newHub with
    players := [⟨"a", "ua", "A"⟩, ⟨"b", "ub", "B"⟩, ⟨"c", "uc", "C"⟩]
    moderatorPlayerID := "m" }

/-- A random stream whose very first one-byte read fails, after which
reads return byte 0. -/
def rndFailFirst : Nat → Option Nat := fun k => if k == 0 then none else some 0

/-- C7 evaluation: id generation is fatal on random failure as the claim
says (`newGameIDAttempt none` produces no id, modelling the Go panic),
but the Fisher-Yates shuffle is not: with the first draw failing, the
swap for index 2 is silently skipped (`continue`) and `start_game` still
installs a full-length turn order built from fewer random draws than
swaps, instead of aborting. -/
theorem random_failure_not_fatal_in_shuffle :
    newGameIDAttempt none = none ∧
    (startGameLocked threePlayerLobby rndFailFirst).gameStarted = true ∧
    (startGameLocked threePlayerLobby rndFailFirst).turnOrder = ["b", "a", "c"] := by
  decide

/-- One sweep of `GameManager.reaperLoop` (src/celebrity.go:956-974) over
the registry, entries being (game id, lastActive) with times as
integers: `cutoff := now - idleTimeout` and a hub is deleted exactly
when `last.Before(cutoff)`, i.e. strictly `last < now - timeout`. -/
def reaperSweep (hubs : List (String × Int)) (now timeout : Int) : List (String × Int) :=
  hubs.filter (fun e => !(decide (e.2 < now - timeout)))

/-- C8 counterexample: a session whose inactivity equals the idle timeout
exactly (now - last = timeout, here 10 - 5 = 5) is kept by the sweep,
though the claim says a session with `now - last_active >= idle_timeout`
is destroyed. -/
theorem reaper_keeps_boundary_session :
    reaperSweep [("g1", 5)] 10 5 = [("g1", 5)] ∧ (10 : Int) - 5 ≥ 5 := by
  decide

/-- C8 amended: at each sweep a session survives if and only if its
inactivity is at most the idle timeout: `now - last_active > idle_timeout`
(strictly) destroys it, and a session with inactivity equal to the
timeout is kept. -/
theorem reaper_removes_iff_strict (hubs : List (String × Int)) (now timeout : Int)
    (e : String × Int) :
    e ∈ reaperSweep hubs now timeout ↔ e ∈ hubs ∧ now - e.2 ≤ timeout := by
  rw [reaperSweep, List.mem_filter]
  constructor
  · rintro ⟨h1, h2⟩
    refine ⟨h1, ?_⟩
    simp at h2
    omega
  · rintro ⟨h1, h2⟩
    refine ⟨h1, ?_⟩
    simp
    omega

/-- `currentCelebritiesLocked` (src/celebrity.go:285-294): during a game
eliminated players' entries are pruned; before (or after) a game all
entries show. -/
def currentCelebritiesLocked (h : Hub) : List String :=
  (h.players.filter (fun p => !(h.gameStarted && h.eliminated.contains p.playerID))).map
    Player.celebrity

/-- The connect-time celebrity snapshot decision of `Hub.run`'s register
branch (src/celebrity.go:232-252): the moderator and clients of a
started game see the current list, everyone else an empty one. -/
def connectCelebs (h : Hub) (pid : String) : List String :=
  if h.gameStarted || pid == h.moderatorPlayerID then currentCelebritiesLocked h else []

/-- The Go `idToUsername` map lookup (src/celebrity.go:296-302): built by
forward iteration with later entries overwriting, so a lookup returns
the username of the last record with the given playerID. -/
def idToUsername (ps : List Player) (pid : String) : Option String :=
  (ps.reverse.find? (fun p => p.playerID == pid)).map Player.username

/-- The non-eliminated players, in roster order. -/
def activePlayers (h : Hub) : List Player :=
  h.players.filter (fun p => !(h.eliminated.contains p.playerID))

/-- The winner computation of `broadcastGameStateLocked`
(src/celebrity.go:381-398): when the game is not started and exactly one
active player remains, the winner field carries that player's username,
else it is empty. -/
def winnerName (h : Hub) : String :=
  if h.gameStarted then ""
  else
    match (activePlayers h).getLast? with
    | none => ""
    | some p =>
      if (activePlayers h).length == 1 then (idToUsername h.players p.playerID).getD ""
      else ""

/-- A post-game session: the game reverted to Lobby with "b" eliminated,
so "ua" is the winner; "m" is the moderator. -/
def postGameHub : Hub :=
  { newHub with
    players := [⟨"a", "ua", "A"⟩, ⟨"b", "ub", "B"⟩]
    moderatorPlayerID := "m"
    turnOrder := ["a", "b"]
    eliminated := ["b"] }

/-- C9 counterexample: in the post-game session (phase Lobby with winner
"ua"), a connecting non-moderator client receives an empty celebrity
list even though the current list is nonempty — the claim says every
client connecting post-game receives the current list. -/
theorem postgame_connect_gets_empty_list :
    winnerName postGameHub = "ua" ∧
    connectCelebs postGameHub "z" = [] ∧
    currentCelebritiesLocked postGameHub = ["A", "B"] := by
  decide

/-- C9 amended: the connect-time snapshot carries the current celebrity
list exactly when the game is currently Active or the connecting
identity is the moderator; every non-moderator connecting while the game
is not Active — pre-game or post-game (Lobby-with-winner) alike —
receives an empty list. -/
theorem connect_snapshot_visibility (h : Hub) (pid : String) :
    (h.gameStarted = true → connectCelebs h pid = currentCelebritiesLocked h) ∧
    (pid = h.moderatorPlayerID → connectCelebs h pid = currentCelebritiesLocked h) ∧
    (h.gameStarted = false → pid ≠ h.moderatorPlayerID → connectCelebs h pid = []) := by
  refine ⟨?_, ?_, ?_⟩
  · intro hg
    rw [connectCelebs, if_pos (by simp [hg])]
  · intro hm
    rw [connectCelebs, if_pos (by simp [hm])]
  · intro hg hm
    rw [connectCelebs, if_neg (by simp [hg, hm])]

/-- Witness for the amended C9: at the post-game session, the theorem
instantiates to the non-moderator "z" receiving the empty list. -/
theorem connect_snapshot_visibility_witness :
    (postGameHub.gameStarted = true →
      connectCelebs postGameHub "z" = currentCelebritiesLocked postGameHub) ∧
    ("z" = postGameHub.moderatorPlayerID →
      connectCelebs postGameHub "z" = currentCelebritiesLocked postGameHub) ∧
    (postGameHub.gameStarted = false → "z" ≠ postGameHub.moderatorPlayerID →
      connectCelebs postGameHub "z" = []) :=
  connect_snapshot_visibility postGameHub "z"

theorem players_pid_unique :
    ∀ (ps : List Player), ps.Pairwise (fun a b => a.playerID ≠ b.playerID) →
    ∀ p q : Player, p ∈ ps → q ∈ ps → p.playerID = q.playerID → p = q := by
  intro ps
  induction ps with
  | nil => intro _ p q hp _ _; exact absurd hp (List.not_mem_nil p)
  | cons a rest ih =>
    intro hd p q hp hq heq
    obtain ⟨hhead, htail⟩ := List.pairwise_cons.mp hd
    rcases List.mem_cons.mp hp with rfl | hp' <;> rcases List.mem_cons.mp hq with rfl | hq'
    · rfl
    · exact absurd heq (hhead q hq')
    · exact absurd heq.symm (hhead p hp')
    · exact ih htail p q hp' hq' heq

/-- C10: whenever the phase is Lobby (game not started) and exactly one
non-eliminated Player exists, the game_state broadcast's winner field
carries that Player's username — with no requirement that a game was
ever played, so a fresh single-player lobby already announces a
winner. -/
theorem lobby_single_active_is_winner (h : Hub) (p : Player)
    (hg : h.gameStarted = false)
    (hact : activePlayers h = [p])
    (hdist : h.players.Pairwise (fun a b => a.playerID ≠ b.playerID)) :
    winnerName h = p.username := by
  have hpmem : p ∈ h.players := by
    have hp : p ∈ activePlayers h := by rw [hact]; exact List.mem_singleton_self p
    exact List.mem_of_mem_filter hp
  obtain ⟨q, hq⟩ : ∃ q, h.players.reverse.find? (fun r => r.playerID == p.playerID) = some q := by
    cases hfind : h.players.reverse.find? (fun r => r.playerID == p.playerID) with
    | some q => exact ⟨q, rfl⟩
    | none =>
      exfalso
      have := List.find?_eq_none.mp hfind p (List.mem_reverse.mpr hpmem)
      simp at this
  have hqmem : q ∈ h.players := List.mem_reverse.mp (List.mem_of_find?_eq_some hq)
  have hqpid : q.playerID = p.playerID := by
    have h5 := List.find?_some hq
    simpa using h5
  have hqp : q = p := players_pid_unique h.players hdist q p hqmem hpmem hqpid
  rw [winnerName, if_neg (by simp [hg]), hact]
  have hl : ([p] : List Player).getLast? = some p := by simp
  rw [hl, List.length_singleton]
  show (if ((1 : Nat) == 1) = true then (idToUsername h.players p.playerID).getD "" else "")
    = p.username
  rw [if_pos (by decide), idToUsername, hq, hqp]
  rfl

/-- A fresh lobby in which a single player has joined and no game has
ever been started. -/
def singleLobby : Hub := { newHub with players := [⟨"a", "solo", "Cher"⟩] }

/-- Witness for C10: the fresh single-player lobby already reports its
only player as winner. -/
theorem lobby_single_active_is_winner_witness :
    winnerName singleLobby = "solo" :=
  lobby_single_active_is_winner singleLobby ⟨"a", "solo", "Cher"⟩ rfl (by decide) (by decide)

end Partybox
